import Mathlib

/-!
Shallow embedding of the reasoning-gym sources
`reasoning_gym/graphs/family_relationships.py` and
`reasoning_gym/arithmetic/decimal_arithmetic.py`.

Persons are represented by their integer ids (the Python code hashes and
compares `Person` values by `id` only, and ids are handed out by a fresh
counter, so a `Person` is faithfully identified with its id).  The mutable
object graph becomes a `FamilyState`: total maps from ids to the `parents`
and `children` lists, the optional `spouse`, the `gender`, and the optional
`name` (Python `None` names become `Option.none`), together with the list of
ids that were added to the `family` set.

Randomness is made explicit: every `rng.choice` / `rng.randint` outcome is a
parameter (an oracle function), so a statement quantified over all oracle
values covers every seed of the Python `random.Random` stream.
-/

inductive Gender where
  | male : Gender
  | female : Gender
deriving DecidableEq, Repr

inductive Relationship where
  | mother | father | sister | brother | daughter | son
  | wife | husband | grandmother | grandfather
deriving DecidableEq, Repr

/-- The mutable object graph of `Person` values, keyed by `Person.id`. -/
@[ext]
structure FamilyState where
  parents : Nat → List Nat
  children : Nat → List Nat
  spouse : Nat → Option Nat
  gender : Nat → Gender
  name : Nat → Option String
  members : List Nat

def emptyState : FamilyState where
  parents := fun _ => []
  children := fun _ => []
  spouse := fun _ => none
  gender := fun _ => Gender.male
  name := fun _ => none
  members := []

/-- `Person(name, gender, id)`: record the name and gender of a fresh id. -/
def createPerson (s : FamilyState) (i : Nat) (nm : Option String) (g : Gender) :
    FamilyState :=
  { s with
    name := fun p => if p = i then nm else s.name p
    gender := fun p => if p = i then g else s.gender p }

/-- `Person.add_child`: append `child` to `parent.children` unless already
present, and append `parent` to `child.parents` unless already present. -/
def addChild (s : FamilyState) (parent child : Nat) : FamilyState :=
  { s with
    children := fun p =>
      if p = parent then
        if child ∈ s.children parent then s.children parent
        else s.children parent ++ [child]
      else s.children p
    parents := fun p =>
      if p = child then
        if parent ∈ s.parents child then s.parents child
        else s.parents child ++ [parent]
      else s.parents p }

/-- `Person.add_spouse`: `self.spouse = spouse; spouse.spouse = self`. -/
def addSpouse (s : FamilyState) (a b : Nat) : FamilyState :=
  { s with
    spouse := fun p => if p = b then some a else if p = a then some b else s.spouse p }

/-- `_generate_family.get_name`: filter the gender pool by the shared
`used_names` set; if nothing is available return `None`, otherwise a
`rng.choice` element of the available list (the oracle value `r` selects
the index, reduced modulo the length so that every choice is covered). -/
def getName (pool used : List String) (r : Nat) : Option String :=
  let available := pool.filter (fun n => decide (n ∉ used))
  if available.isEmpty then none
  else some (available.getD (r % available.length) "")

/-- The child-adding `while` loop of `_generate_family`.  One fuel unit per
potential iteration (each iteration grows `family` by exactly one, so
`familySize` fuel is always enough).  `k` counts the children created so
far: the next child gets id `4 + k`; `nC (4 + k)` is the `rng.choice` made
inside the `get_name` call and `gC k` the `rng.choice` of the gender. -/
def childLoop (mp fp : List String) (nC : Nat → Nat) (gC : Nat → Gender)
    (fs : Nat) : Nat → FamilyState → List String → Nat → FamilyState
  | 0, s, _, _ => s
  | fuel + 1, s, used, k =>
    if s.members.length < fs then
      match getName (match gC k with | Gender.male => mp | Gender.female => fp)
          used (nC (4 + k)) with
      | none => s
      | some nm =>
        if nm.isEmpty then s
        else
          let s1 := createPerson s (4 + k) (some nm) (gC k)
          let s2 := addChild s1 2 (4 + k)
          let s3 := addChild s2 3 (4 + k)
          childLoop mp fp nC gC fs fuel
            { s3 with members := s3.members ++ [4 + k] }
            (used ++ [nm]) (k + 1)
    else s

/-- The grandfather's name draw (the first `get_name` call, empty `used`). -/
def gfName (mp : List String) (nC : Nat → Nat) : Option String :=
  getName mp [] (nC 0)

/-- The grandmother's name draw (second call; the grandfather's name, if
any, is already in `used_names`). -/
def gmName (mp fp : List String) (nC : Nat → Nat) : Option String :=
  getName fp (gfName mp nC).toList (nC 1)

/-- The father's name draw (third call). -/
def fName (mp fp : List String) (nC : Nat → Nat) : Option String :=
  getName mp ((gfName mp nC).toList ++ (gmName mp fp nC).toList) (nC 2)

/-- The mother's name draw (fourth call). -/
def mName (mp fp : List String) (nC : Nat → Nat) : Option String :=
  getName fp ((gfName mp nC).toList ++ (gmName mp fp nC).toList ++ (fName mp fp nC).toList)
    (nC 3)

/-- `used_names` after the four seed members are created. -/
def seedUsed (mp fp : List String) (nC : Nat → Nat) : List String :=
  (gfName mp nC).toList ++ (gmName mp fp nC).toList ++ (fName mp fp nC).toList ++
    (mName mp fp nC).toList

/-- The state of `_generate_family` just before the child-adding loop:
grandfather (id 0), grandmother (id 1), father (id 2), mother (id 3);
spouse links 0–1 and 2–3; the father registered as a child of both
grandparents; members `{0, 1, 2, 3}`. -/
def seedState (mp fp : List String) (nC : Nat → Nat) : FamilyState :=
  let s1 := createPerson (createPerson emptyState 0 (gfName mp nC) Gender.male) 1
    (gmName mp fp nC) Gender.female
  let s2 := addSpouse s1 0 1
  let s3 := { s2 with members := s2.members ++ [0, 1] }
  let s4 := createPerson (createPerson s3 2 (fName mp fp nC) Gender.male) 3
    (mName mp fp nC) Gender.female
  let s5 := addSpouse s4 2 3
  let s6 := addChild s5 0 2
  let s7 := addChild s6 1 2
  { s7 with members := s7.members ++ [2, 3] }

/-- `FamilyRelationshipsDataset._generate_family`, with the drawn
`family_size` and the random choices passed explicitly. -/
def generateFamily (mp fp : List String) (fs : Nat) (nC : Nat → Nat)
    (gC : Nat → Gender) : FamilyState :=
  childLoop mp fp nC gC fs fs (seedState mp fp nC) (seedUsed mp fp nC) 0

/-- The classification chain of
`FamilyRelationshipsDataset._get_relationship_question`; `none` models the
`else` branch that recurses (resamples). -/
def classify (s : FamilyState) (p1 p2 : Nat) : Option Relationship :=
  if p1 ∈ s.parents p2 then
    some (if s.gender p1 = Gender.female then Relationship.mother else Relationship.father)
  else if p2 ∈ s.parents p1 then
    some (if s.gender p1 = Gender.female then Relationship.daughter else Relationship.son)
  else if s.spouse p1 = some p2 then
    some (if s.gender p1 = Gender.female then Relationship.wife else Relationship.husband)
  else if s.parents p1 ≠ [] ∧ s.parents p2 ≠ [] ∧
      (s.parents p1).toFinset = (s.parents p2).toFinset then
    some (if s.gender p1 = Gender.female then Relationship.sister else Relationship.brother)
  else if p1 ∈ (s.parents p2).flatMap s.parents then
    some (if s.gender p1 = Gender.female then Relationship.grandmother else Relationship.grandfather)
  else none

/-- How many of the five classification rules hold of the ordered pair. -/
def matchCount (s : FamilyState) (p1 p2 : Nat) : Nat :=
  (if p1 ∈ s.parents p2 then 1 else 0) +
  (if p2 ∈ s.parents p1 then 1 else 0) +
  (if s.spouse p1 = some p2 then 1 else 0) +
  (if s.parents p1 ≠ [] ∧ s.parents p2 ≠ [] ∧
      (s.parents p1).toFinset = (s.parents p2).toFinset then 1 else 0) +
  (if p1 ∈ (s.parents p2).flatMap s.parents then 1 else 0)

/-- The rejection-sampling loop of `_get_relationship_question`: the list
`draws` is the stream of sampled pairs; the recursion retries until
`classify` succeeds. -/
def getRelationshipQuestion (s : FamilyState) :
    List (Nat × Nat) → Option (Nat × Nat × Relationship)
  | [] => none
  | (p1, p2) :: rest =>
    match classify s p1 p2 with
    | some r => some (p1, p2, r)
    | none => getRelationshipQuestion s rest

/-- The couple-collecting loop at the start of `_generate_story`:
`for person in family: if person.spouse and (person.spouse, person) not in
couples: couples.add((person, person.spouse))`.  The Python set iteration
order is modelled by the list `l`; the accumulated set of pairs by a
duplicate-free list. -/
def couplesAux (spouse : Nat → Option Nat) : List Nat → List (Nat × Nat) → List (Nat × Nat)
  | [], acc => acc
  | p :: rest, acc =>
    match spouse p with
    | none => couplesAux spouse rest acc
    | some sp =>
      if (sp, p) ∈ acc then couplesAux spouse rest acc
      else couplesAux spouse rest (acc ++ [(p, sp)])

def couples (spouse : Nat → Option Nat) (l : List Nat) : List (Nat × Nat) :=
  couplesAux spouse l []

/-- One marriage sentence of `_generate_story` (`str(None)` is `"None"`). -/
def marriageSentence (s : FamilyState) (pq : Nat × Nat) : String :=
  ((s.name pq.1).getD "None") ++ " is married to " ++ ((s.name pq.2).getD "None") ++ "."

/-- The marriage sentences emitted by `_generate_story`, one per entry of
the `couples` set, in iteration order `l`. -/
def storyMarriageSentences (s : FamilyState) (l : List Nat) : List String :=
  (couples s.spouse l).map (marriageSentence s)

/-!  Embedding of `decimal_arithmetic.py`.

A generated problem string is an alternation `num op num op ... num = ?`,
so it is represented by its leading number plus the list of (operator,
number) continuations.  Numeric values are rationals: every generated
literal is exactly `k / 10 ^ ndp`.  Python `eval` on such a flat expression
is left-to-right evaluation with `*`, `/`, `//` binding tighter than `+`,
`-`; `eval_floordiv` first turns every `/` of the displayed string into
`//` (Python float floor division, `⌊a / b⌋` as a number). -/

inductive AOp where
  | add | sub | mul | div
deriving DecidableEq, Repr

/-- Python float `//`: the floor of the true quotient. -/
def qfloorDiv (a b : ℚ) : ℚ := (⌊a / b⌋ : ℤ)

/-- Python float `/` on rational values. -/
def qtrueDiv (a b : ℚ) : ℚ := a / b

def applyAdd (sum : ℚ) (isAdd : Bool) (prod : ℚ) : ℚ :=
  if isAdd then sum + prod else sum - prod

/-- Left-to-right evaluation with precedence: `prod` accumulates the
current multiplicative run, `sum`/`isAdd` the additive prefix; `dv` is the
semantics given to the division sign. -/
def evalGo (dv : ℚ → ℚ → ℚ) (sum : ℚ) (isAdd : Bool) (prod : ℚ) :
    List (AOp × ℚ) → ℚ
  | [] => applyAdd sum isAdd prod
  | (AOp.mul, x) :: rest => evalGo dv sum isAdd (prod * x) rest
  | (AOp.div, x) :: rest => evalGo dv sum isAdd (dv prod x) rest
  | (AOp.add, x) :: rest => evalGo dv (applyAdd sum isAdd prod) true x rest
  | (AOp.sub, x) :: rest => evalGo dv (applyAdd sum isAdd prod) false x rest

def evalChain (dv : ℚ → ℚ → ℚ) (first : ℚ) (rest : List (AOp × ℚ)) : ℚ :=
  evalGo dv 0 true first rest

/-- `eval_floordiv`: evaluate the problem with every `/` replaced by `//`. -/
def eval_floordiv (first : ℚ) (rest : List (AOp × ℚ)) : ℚ :=
  evalChain qfloorDiv first rest

/-- The value of the displayed expression under true division. -/
def evalDisplayed (first : ℚ) (rest : List (AOp × ℚ)) : ℚ :=
  evalChain qtrueDiv first rest

/-- One term of `generate_arithmetic_problem`:
`ndp1 = rng.randint(min_ndp, max_ndp)`, `num1 = rng.randint(1, 10*10^ndp1) / 10^ndp1`.
The oracle values `ndpR`, `numR` select the `randint` outcomes. -/
def termValue (minD maxD ndpR numR : Nat) : ℚ :=
  let ndp := minD + ndpR % (maxD - minD + 1)
  let maxValue := 10 * 10 ^ ndp
  ((1 + numR % maxValue : ℕ) : ℚ) / ((10 ^ ndp : ℕ) : ℚ)

/-- `generate_arithmetic_problem` with `terms = n + 1`: the i-th term is a
random decimal, every term but the last is followed by a random operator. -/
def generate_arithmetic_problem (minD maxD n : Nat) (ndpR numR : Nat → Nat)
    (opR : Nat → AOp) : ℚ × List (AOp × ℚ) :=
  (termValue minD maxD (ndpR 0) (numR 0),
   (List.range n).map (fun i => (opR i, termValue minD maxD (ndpR (i + 1)) (numR (i + 1)))))

/-- The `answer` field produced by `DecimalArithmeticDataset.__getitem__`:
`answer = eval_floordiv(decimal_problem)`. -/
def getItemAnswer (minD maxD n : Nat) (ndpR numR : Nat → Nat) (opR : Nat → AOp) : ℚ :=
  eval_floordiv (generate_arithmetic_problem minD maxD n ndpR numR opR).1
    (generate_arithmetic_problem minD maxD n ndpR numR opR).2

/-- `DecimalArithmeticDataset.score_answer`.  `parse` stands for Python
`float(...)` on the submitted string: `parse a = none` models the
`except` branch (a raised `ValueError`), which returns the same fallback
0.01 as a parseable-but-wrong value.  The function is total: no branch
raises. -/
def score_answer (parse : String → Option ℚ) (expected : ℚ)
    (answer : Option String) : ℚ :=
  match answer with
  | none => 0
  | some a =>
    match parse a with
    | some v => if v = expected then 1 else 1 / 100
    | none => 1 / 100

/-!  Structure of every generated family.

`FamInv s used k` says that `s` is the family graph after the seed members
plus `k` loop-created children: members are exactly the ids `0 … 3 + k`,
the father (2) is the unique person with parents `[0, 1]`, every child
`4 ≤ c < 4 + k` has parents `[2, 3]`, the spouse links are the two fixed
couples, and all assigned names are distinct and recorded in `used`. -/

def spouseMap : Nat → Option Nat := fun p =>
  if p = 3 then some 2
  else if p = 2 then some 3
  else if p = 1 then some 0
  else if p = 0 then some 1
  else none

structure FamInv (s : FamilyState) (used : List String) (k : Nat) : Prop where
  members_eq : s.members = List.range (4 + k)
  parents_eq : ∀ p, s.parents p =
    if p = 2 then [0, 1] else if 4 ≤ p ∧ p < 4 + k then [2, 3] else []
  children_eq : ∀ p, s.children p =
    if p = 0 ∨ p = 1 then [2] else if p = 2 ∨ p = 3 then List.range' 4 k else []
  spouse_eq : ∀ p, s.spouse p = spouseMap p
  gender0 : s.gender 0 = Gender.male
  gender1 : s.gender 1 = Gender.female
  gender2 : s.gender 2 = Gender.male
  gender3 : s.gender 3 = Gender.female
  name_used : ∀ p a, p ∈ s.members → s.name p = some a → a ∈ used
  name_inj : ∀ p q a, p ∈ s.members → q ∈ s.members → p ≠ q →
    s.name p = some a → s.name q = some a → False

theorem getName_mem {pool used : List String} {r : Nat} {a : String}
    (h : getName pool used r = some a) : a ∈ pool ∧ a ∉ used := by
  simp only [getName] at h
  split at h
  · exact absurd h (by simp)
  · rename_i he
    have hne : pool.filter (fun n => decide (n ∉ used)) ≠ [] := by
      intro hnil
      rw [hnil] at he
      simp at he
    have hlen : 0 < (pool.filter (fun n => decide (n ∉ used))).length :=
      List.length_pos.mpr hne
    have hm : r % (pool.filter (fun n => decide (n ∉ used))).length <
        (pool.filter (fun n => decide (n ∉ used))).length := Nat.mod_lt _ hlen
    have hmem : (pool.filter (fun n => decide (n ∉ used))).getD
        (r % (pool.filter (fun n => decide (n ∉ used))).length) "" ∈
        pool.filter (fun n => decide (n ∉ used)) := by
      rw [List.getD_eq_getElem _ "" hm]
      exact List.getElem_mem hm
    rw [Option.some.injEq] at h
    rw [h] at hmem
    have hf := List.mem_filter.mp hmem
    exact ⟨hf.1, by simpa using hf.2⟩

theorem getName_fresh {pool used : List String} {r : Nat} {a : String}
    (h : getName pool used r = some a) : a ∉ used :=
  (getName_mem h).2

theorem seed_members (mp fp : List String) (nC : Nat → Nat) :
    (seedState mp fp nC).members = [0, 1, 2, 3] := rfl

theorem seed_name0 (mp fp : List String) (nC : Nat → Nat) :
    (seedState mp fp nC).name 0 = gfName mp nC := rfl

theorem seed_name1 (mp fp : List String) (nC : Nat → Nat) :
    (seedState mp fp nC).name 1 = gmName mp fp nC := rfl

theorem seed_name2 (mp fp : List String) (nC : Nat → Nat) :
    (seedState mp fp nC).name 2 = fName mp fp nC := rfl

theorem seed_name3 (mp fp : List String) (nC : Nat → Nat) :
    (seedState mp fp nC).name 3 = mName mp fp nC := rfl

theorem seed_inv (mp fp : List String) (nC : Nat → Nat) :
    FamInv (seedState mp fp nC) (seedUsed mp fp nC) 0 := by
  have h01 : ∀ a, gfName mp nC = some a → gmName mp fp nC = some a → False := by
    intro a h1 h2
    have hf := getName_fresh (show getName fp (gfName mp nC).toList (nC 1) = some a from h2)
    simp [h1] at hf
  have h02 : ∀ a, gfName mp nC = some a → fName mp fp nC = some a → False := by
    intro a h1 h2
    have hf := getName_fresh (show getName mp
      ((gfName mp nC).toList ++ (gmName mp fp nC).toList) (nC 2) = some a from h2)
    simp [h1] at hf
  have h03 : ∀ a, gfName mp nC = some a → mName mp fp nC = some a → False := by
    intro a h1 h2
    have hf := getName_fresh (show getName fp
      ((gfName mp nC).toList ++ (gmName mp fp nC).toList ++ (fName mp fp nC).toList)
      (nC 3) = some a from h2)
    simp [h1] at hf
  have h12 : ∀ a, gmName mp fp nC = some a → fName mp fp nC = some a → False := by
    intro a h1 h2
    have hf := getName_fresh (show getName mp
      ((gfName mp nC).toList ++ (gmName mp fp nC).toList) (nC 2) = some a from h2)
    simp [h1] at hf
  have h13 : ∀ a, gmName mp fp nC = some a → mName mp fp nC = some a → False := by
    intro a h1 h2
    have hf := getName_fresh (show getName fp
      ((gfName mp nC).toList ++ (gmName mp fp nC).toList ++ (fName mp fp nC).toList)
      (nC 3) = some a from h2)
    simp [h1] at hf
  have h23 : ∀ a, fName mp fp nC = some a → mName mp fp nC = some a → False := by
    intro a h1 h2
    have hf := getName_fresh (show getName fp
      ((gfName mp nC).toList ++ (gmName mp fp nC).toList ++ (fName mp fp nC).toList)
      (nC 3) = some a from h2)
    simp [h1] at hf
  constructor
  case members_eq => rfl
  case parents_eq =>
    intro p
    by_cases h2 : p = 2
    · subst h2; rfl
    · simp only [seedState, addChild, addSpouse, createPerson, emptyState]
      simp only [h2, if_false]
      rw [if_neg (show ¬(4 ≤ p ∧ p < 4 + 0) from by omega)]
  case children_eq =>
    intro p
    by_cases h0 : p = 0
    · subst h0; rfl
    · by_cases h1 : p = 1
      · subst h1; rfl
      · simp only [seedState, addChild, addSpouse, createPerson, emptyState]
        simp only [h0, h1, if_false]
        split_ifs <;> first | rfl | simp_all
  case spouse_eq => intro p; rfl
  case gender0 => rfl
  case gender1 => rfl
  case gender2 => rfl
  case gender3 => rfl
  case name_used =>
    intro p a hp hn
    rw [seed_members] at hp
    simp only [List.mem_cons, List.not_mem_nil, or_false] at hp
    rcases hp with rfl | rfl | rfl | rfl
    · rw [seed_name0] at hn; simp [seedUsed, hn]
    · rw [seed_name1] at hn; simp [seedUsed, hn]
    · rw [seed_name2] at hn; simp [seedUsed, hn]
    · rw [seed_name3] at hn; simp [seedUsed, hn]
  case name_inj =>
    intro p q a hp hq hne hpn hqn
    rw [seed_members] at hp hq
    simp only [List.mem_cons, List.not_mem_nil, or_false] at hp hq
    rcases hp with rfl | rfl | rfl | rfl <;> rcases hq with rfl | rfl | rfl | rfl
    · exact hne rfl
    · rw [seed_name0] at hpn; rw [seed_name1] at hqn; exact h01 a hpn hqn
    · rw [seed_name0] at hpn; rw [seed_name2] at hqn; exact h02 a hpn hqn
    · rw [seed_name0] at hpn; rw [seed_name3] at hqn; exact h03 a hpn hqn
    · rw [seed_name1] at hpn; rw [seed_name0] at hqn; exact h01 a hqn hpn
    · exact hne rfl
    · rw [seed_name1] at hpn; rw [seed_name2] at hqn; exact h12 a hpn hqn
    · rw [seed_name1] at hpn; rw [seed_name3] at hqn; exact h13 a hpn hqn
    · rw [seed_name2] at hpn; rw [seed_name0] at hqn; exact h02 a hqn hpn
    · rw [seed_name2] at hpn; rw [seed_name1] at hqn; exact h12 a hqn hpn
    · exact hne rfl
    · rw [seed_name2] at hpn; rw [seed_name3] at hqn; exact h23 a hpn hqn
    · rw [seed_name3] at hpn; rw [seed_name0] at hqn; exact h03 a hqn hpn
    · rw [seed_name3] at hpn; rw [seed_name1] at hqn; exact h13 a hqn hpn
    · rw [seed_name3] at hpn; rw [seed_name2] at hqn; exact h23 a hqn hpn
    · exact hne rfl

theorem addChild_children_self (s : FamilyState) (parent child : Nat) :
    (addChild s parent child).children parent =
      if child ∈ s.children parent then s.children parent
      else s.children parent ++ [child] := by
  show (if parent = parent then _ else _) = _
  rw [if_pos rfl]

theorem addChild_children_other (s : FamilyState) {p parent : Nat} (child : Nat)
    (h : p ≠ parent) : (addChild s parent child).children p = s.children p := by
  show (if p = parent then _ else _) = _
  rw [if_neg h]

theorem addChild_parents_self (s : FamilyState) (parent child : Nat) :
    (addChild s parent child).parents child =
      if parent ∈ s.parents child then s.parents child
      else s.parents child ++ [parent] := by
  show (if child = child then _ else _) = _
  rw [if_pos rfl]

theorem addChild_parents_other (s : FamilyState) (parent : Nat) {p child : Nat}
    (h : p ≠ child) : (addChild s parent child).parents p = s.parents p := by
  show (if p = child then _ else _) = _
  rw [if_neg h]

theorem createPerson_children (s : FamilyState) (i : Nat) (nm : Option String)
    (g : Gender) : (createPerson s i nm g).children = s.children := rfl

theorem createPerson_parents (s : FamilyState) (i : Nat) (nm : Option String)
    (g : Gender) : (createPerson s i nm g).parents = s.parents := rfl

theorem step_inv {s : FamilyState} {used : List String} {k : Nat}
    (h : FamInv s used k) {pool : List String} {r : Nat} {nm : String}
    (hgn : getName pool used r = some nm) (g : Gender) :
    FamInv
      { addChild (addChild (createPerson s (4 + k) (some nm) g) 2 (4 + k)) 3 (4 + k) with
        members :=
          (addChild (addChild (createPerson s (4 + k) (some nm) g) 2 (4 + k)) 3
            (4 + k)).members ++ [4 + k] }
      (used ++ [nm]) (k + 1) := by
  have hpc : s.parents (4 + k) = [] := by
    rw [h.parents_eq]
    rw [if_neg (by omega), if_neg (by omega)]
  have hc2 : s.children 2 = List.range' 4 k := by
    rw [h.children_eq]; simp
  have hc3 : s.children 3 = List.range' 4 k := by
    rw [h.children_eq]; simp
  have hnotin : (4 + k) ∉ List.range' 4 k := by
    intro hmem
    rw [List.mem_range'_1] at hmem
    omega
  constructor
  case members_eq =>
    show s.members ++ [4 + k] = List.range (4 + (k + 1))
    rw [h.members_eq]
    rw [show 4 + (k + 1) = (4 + k) + 1 from rfl, List.range_succ]
  case parents_eq =>
    intro p
    by_cases hp : p = 4 + k
    · subst hp
      simp only [addChild, createPerson]
      rw [if_neg (show (4 : Nat) + k ≠ 2 from by omega),
        if_pos (show 4 ≤ 4 + k ∧ 4 + k < 4 + (k + 1) from by omega)]
      simp [hpc]
    · simp only [addChild, createPerson]
      rw [if_neg hp, if_neg hp]
      rw [h.parents_eq]
      split_ifs <;> first | rfl | (exfalso; omega)
  case children_eq =>
    intro p
    by_cases hp3 : p = 3
    · subst hp3
      show (addChild (addChild (createPerson s (4 + k) (some nm) g) 2 (4 + k)) 3
        (4 + k)).children 3 = _
      rw [addChild_children_self]
      rw [addChild_children_other _ _ (show (3 : Nat) ≠ 2 from by omega)]
      rw [createPerson_children, hc3, if_neg hnotin]
      rw [if_neg (show ¬((3 : Nat) = 0 ∨ (3 : Nat) = 1) from by omega),
        if_pos (show (3 : Nat) = 2 ∨ (3 : Nat) = 3 from Or.inr rfl)]
      exact (List.range'_1_concat 4 k).symm
    · by_cases hp2 : p = 2
      · subst hp2
        show (addChild (addChild (createPerson s (4 + k) (some nm) g) 2 (4 + k)) 3
          (4 + k)).children 2 = _
        rw [addChild_children_other _ _ (show (2 : Nat) ≠ 3 from by omega)]
        rw [addChild_children_self]
        rw [createPerson_children, hc2, if_neg hnotin]
        rw [if_neg (show ¬((2 : Nat) = 0 ∨ (2 : Nat) = 1) from by omega),
          if_pos (show (2 : Nat) = 2 ∨ (2 : Nat) = 3 from Or.inl rfl)]
        exact (List.range'_1_concat 4 k).symm
      · show (addChild (addChild (createPerson s (4 + k) (some nm) g) 2 (4 + k)) 3
          (4 + k)).children p = _
        rw [addChild_children_other _ _ hp3, addChild_children_other _ _ hp2]
        rw [createPerson_children, h.children_eq]
        split_ifs <;> first | rfl | (exfalso; omega)
  case spouse_eq => intro p; exact h.spouse_eq p
  case gender0 =>
    show (if (0 : Nat) = 4 + k then g else s.gender 0) = Gender.male
    rw [if_neg (by omega)]; exact h.gender0
  case gender1 =>
    show (if (1 : Nat) = 4 + k then g else s.gender 1) = Gender.female
    rw [if_neg (by omega)]; exact h.gender1
  case gender2 =>
    show (if (2 : Nat) = 4 + k then g else s.gender 2) = Gender.male
    rw [if_neg (by omega)]; exact h.gender2
  case gender3 =>
    show (if (3 : Nat) = 4 + k then g else s.gender 3) = Gender.female
    rw [if_neg (by omega)]; exact h.gender3
  case name_used =>
    intro p a hp hn
    have hp2 : p ∈ s.members ++ [4 + k] := hp
    have hn2 : (if p = 4 + k then some nm else s.name p) = some a := hn
    by_cases hpk : p = 4 + k
    · rw [if_pos hpk, Option.some.injEq] at hn2
      subst hn2
      exact List.mem_append_right _ (List.mem_singleton.mpr rfl)
    · rw [if_neg hpk] at hn2
      rcases List.mem_append.mp hp2 with hmem | hmem
      · exact List.mem_append_left _ (h.name_used p a hmem hn2)
      · exact absurd (List.mem_singleton.mp hmem) hpk
  case name_inj =>
    intro p q a hp hq hne hpn hqn
    have hp2 : p ∈ s.members ++ [4 + k] := hp
    have hq2 : q ∈ s.members ++ [4 + k] := hq
    have hpn2 : (if p = 4 + k then some nm else s.name p) = some a := hpn
    have hqn2 : (if q = 4 + k then some nm else s.name q) = some a := hqn
    by_cases hpk : p = 4 + k <;> by_cases hqk : q = 4 + k
    · exact hne (hpk.trans hqk.symm)
    · rw [if_pos hpk, Option.some.injEq] at hpn2
      subst hpn2
      rw [if_neg hqk] at hqn2
      rcases List.mem_append.mp hq2 with hmem | hmem
      · exact getName_fresh hgn (h.name_used q nm hmem hqn2)
      · exact hqk (List.mem_singleton.mp hmem)
    · rw [if_pos hqk, Option.some.injEq] at hqn2
      subst hqn2
      rw [if_neg hpk] at hpn2
      rcases List.mem_append.mp hp2 with hmem | hmem
      · exact getName_fresh hgn (h.name_used p nm hmem hpn2)
      · exact hpk (List.mem_singleton.mp hmem)
    · rw [if_neg hpk] at hpn2
      rw [if_neg hqk] at hqn2
      rcases List.mem_append.mp hp2 with hmemp | hmemp
      · rcases List.mem_append.mp hq2 with hmemq | hmemq
        · exact h.name_inj p q a hmemp hmemq hne hpn2 hqn2
        · exact absurd (List.mem_singleton.mp hmemq) hqk
      · exact absurd (List.mem_singleton.mp hmemp) hpk

theorem childLoop_inv (mp fp : List String) (nC : Nat → Nat) (gC : Nat → Gender)
    (fs : Nat) :
    ∀ fuel s used k, FamInv s used k →
      ∃ k2 used2, FamInv (childLoop mp fp nC gC fs fuel s used k) used2 k2 := by
  intro fuel
  induction fuel with
  | zero =>
    intro s used k h
    exact ⟨k, used, h⟩
  | succ n ih =>
    intro s used k h
    by_cases hlen : s.members.length < fs
    · cases hgn : getName (match gC k with | Gender.male => mp | Gender.female => fp)
          used (nC (4 + k)) with
      | none =>
        refine ⟨k, used, ?_⟩
        simpa [childLoop, hlen, hgn] using h
      | some nm =>
        by_cases hemp : nm.isEmpty
        · refine ⟨k, used, ?_⟩
          simpa [childLoop, hlen, hgn, hemp] using h
        · have hstep := step_inv h hgn (gC k)
          have hrec := ih _ _ _ hstep
          simpa [childLoop, hlen, hgn, hemp] using hrec
    · refine ⟨k, used, ?_⟩
      simpa [childLoop, hlen] using h

/-- Every run of `_generate_family` (any pools, any drawn size, any random
choices, hence any seed) produces a family graph of the invariant shape. -/
theorem generateFamily_inv (mp fp : List String) (fs : Nat) (nC : Nat → Nat)
    (gC : Nat → Gender) :
    ∃ k used, FamInv (generateFamily mp fp fs nC gC) used k := by
  obtain ⟨k2, u2, h⟩ := childLoop_inv mp fp nC gC fs fs _ _ 0 (seed_inv mp fp nC)
  exact ⟨k2, u2, h⟩

theorem FamInv.mem_iff {s : FamilyState} {u : List String} {k : Nat}
    (h : FamInv s u k) {p : Nat} : p ∈ s.members ↔ p < 4 + k := by
  rw [h.members_eq, List.mem_range]

theorem FamInv.parents0 {s : FamilyState} {u : List String} {k : Nat}
    (h : FamInv s u k) : s.parents 0 = [] := by
  rw [h.parents_eq]
  rw [if_neg (by omega), if_neg (by omega)]

theorem FamInv.parents1 {s : FamilyState} {u : List String} {k : Nat}
    (h : FamInv s u k) : s.parents 1 = [] := by
  rw [h.parents_eq]
  rw [if_neg (by omega), if_neg (by omega)]

theorem FamInv.parents2 {s : FamilyState} {u : List String} {k : Nat}
    (h : FamInv s u k) : s.parents 2 = [0, 1] := by
  rw [h.parents_eq]
  rw [if_pos rfl]

theorem FamInv.parents3 {s : FamilyState} {u : List String} {k : Nat}
    (h : FamInv s u k) : s.parents 3 = [] := by
  rw [h.parents_eq]
  rw [if_neg (by omega), if_neg (by omega)]

theorem FamInv.parentsChild {s : FamilyState} {u : List String} {k : Nat}
    (h : FamInv s u k) {c : Nat} (hc : 4 ≤ c) (hk : c < 4 + k) :
    s.parents c = [2, 3] := by
  rw [h.parents_eq]
  rw [if_neg (by omega), if_pos ⟨hc, hk⟩]

theorem FamInv.children0 {s : FamilyState} {u : List String} {k : Nat}
    (h : FamInv s u k) : s.children 0 = [2] := by
  rw [h.children_eq]
  rw [if_pos (Or.inl rfl)]

theorem FamInv.children1 {s : FamilyState} {u : List String} {k : Nat}
    (h : FamInv s u k) : s.children 1 = [2] := by
  rw [h.children_eq]
  rw [if_pos (Or.inr rfl)]

theorem FamInv.children2 {s : FamilyState} {u : List String} {k : Nat}
    (h : FamInv s u k) : s.children 2 = List.range' 4 k := by
  rw [h.children_eq]
  rw [if_neg (by omega), if_pos (Or.inl rfl)]

theorem FamInv.children3 {s : FamilyState} {u : List String} {k : Nat}
    (h : FamInv s u k) : s.children 3 = List.range' 4 k := by
  rw [h.children_eq]
  rw [if_neg (by omega), if_pos (Or.inr rfl)]

theorem FamInv.childrenChild {s : FamilyState} {u : List String} {k : Nat}
    (h : FamInv s u k) {c : Nat} (hc : 4 ≤ c) : s.children c = [] := by
  rw [h.children_eq]
  rw [if_neg (by omega), if_neg (by omega)]

theorem FamInv.spouse0 {s : FamilyState} {u : List String} {k : Nat}
    (h : FamInv s u k) : s.spouse 0 = some 1 := by
  rw [h.spouse_eq]; rfl

theorem FamInv.spouse1 {s : FamilyState} {u : List String} {k : Nat}
    (h : FamInv s u k) : s.spouse 1 = some 0 := by
  rw [h.spouse_eq]; rfl

theorem FamInv.spouse2 {s : FamilyState} {u : List String} {k : Nat}
    (h : FamInv s u k) : s.spouse 2 = some 3 := by
  rw [h.spouse_eq]; rfl

theorem FamInv.spouse3 {s : FamilyState} {u : List String} {k : Nat}
    (h : FamInv s u k) : s.spouse 3 = some 2 := by
  rw [h.spouse_eq]; rfl

theorem FamInv.spouseChild {s : FamilyState} {u : List String} {k : Nat}
    (h : FamInv s u k) {c : Nat} (hc : 4 ≤ c) : s.spouse c = none := by
  rw [h.spouse_eq]
  unfold spouseMap
  rw [if_neg (by omega), if_neg (by omega), if_neg (by omega), if_neg (by omega)]

/-- A concrete run of `_generate_family`: three names per pool, drawn size
5, so the family is `{0, 1, 2, 3}` plus one loop-created child with id 4. -/
def demoFamily : FamilyState :=
  generateFamily ["Abe", "Bob", "Carl"] ["Dana", "Eve", "Fay"] 5
    (fun _ => 0) (fun _ => Gender.male)

/-- A concrete run of `_generate_family` with single-name pools: the
grandparents take the only two names, so the father and the mother are both
created with name `None`. -/
def tinyFamily : FamilyState :=
  generateFamily ["Ada"] ["Bea"] 4 (fun _ => 0) (fun _ => Gender.male)

/-- C1 (amended): after the grandparent couple is created, only the father
is registered as a child of the grandparent couple: in every generated
family the father (id 2) appears in the children of the grandfather (id 0)
and of the grandmother (id 1) and has exactly the grandparents as parents,
while the mother (id 3) is a child of neither grandparent and has no
recorded parents. -/
theorem father_only_child_of_grandparents (mp fp : List String) (fs : Nat)
    (nC : Nat → Nat) (gC : Nat → Gender) :
    2 ∈ (generateFamily mp fp fs nC gC).children 0 ∧
    2 ∈ (generateFamily mp fp fs nC gC).children 1 ∧
    (generateFamily mp fp fs nC gC).parents 2 = [0, 1] ∧
    3 ∉ (generateFamily mp fp fs nC gC).children 0 ∧
    3 ∉ (generateFamily mp fp fs nC gC).children 1 ∧
    (generateFamily mp fp fs nC gC).parents 3 = [] := by
  obtain ⟨k, u, h⟩ := generateFamily_inv mp fp fs nC gC
  refine ⟨?_, ?_, h.parents2, ?_, ?_, h.parents3⟩
  · rw [h.children0]; simp
  · rw [h.children1]; simp
  · rw [h.children0]; simp
  · rw [h.children1]; simp

/-- C1 counterexample: in a concrete generated family the mother (id 3) is
registered as a child of neither grandparent, so the claim that both the
father and the mother are linked as children of the grandparent couple is
false. -/
theorem mother_not_child_of_grandparents_cex :
    ¬ (3 ∈ demoFamily.children 0 ∧ 3 ∈ demoFamily.children 1 ∧
       0 ∈ demoFamily.parents 3 ∧ 1 ∈ demoFamily.parents 3) := by decide

/-- C2 (amended): two distinct members of a generated family never share an
actually assigned (non-`None`) display name; only the `None` placeholder
can repeat (father and mother, when both pools are exhausted after the
grandparents). -/
theorem generated_names_distinct (mp fp : List String) (fs : Nat)
    (nC : Nat → Nat) (gC : Nat → Gender) (p q : Nat) (a : String)
    (hp : p ∈ (generateFamily mp fp fs nC gC).members)
    (hq : q ∈ (generateFamily mp fp fs nC gC).members)
    (hne : p ≠ q) (hpa : (generateFamily mp fp fs nC gC).name p = some a) :
    (generateFamily mp fp fs nC gC).name q ≠ some a := by
  obtain ⟨k, u, h⟩ := generateFamily_inv mp fp fs nC gC
  exact fun hqa => h.name_inj p q a hp hq hne hpa hqa

/-- C2 counterexample: with size-1 name pools the grandparents take the two
names, the father (id 2) and the mother (id 3) are both created with name
`None`, so two distinct members share a display-name attribute. -/
theorem duplicate_none_names_cex :
    2 ∈ tinyFamily.members ∧ 3 ∈ tinyFamily.members ∧ (2 : Nat) ≠ 3 ∧
    tinyFamily.name 2 = tinyFamily.name 3 ∧ tinyFamily.name 2 = none := by decide

/-- Witness for `generated_names_distinct` at a concrete family. -/
theorem generated_names_distinct_witness : demoFamily.name 1 ≠ some "Abe" :=
  generated_names_distinct ["Abe", "Bob", "Carl"] ["Dana", "Eve", "Fay"] 5
    (fun _ => 0) (fun _ => Gender.male) 0 1 "Abe" (by decide) (by decide)
    (by decide) (by decide)

/-- C7: every generated family — any configuration, any drawn target size
(including sizes below 4), any random choices, even with exhausted name
pools — contains at least the 4 seed members: the two grandparents (0, 1)
and the two parents (2, 3), all pairwise distinct. -/
theorem family_has_at_least_four_members (mp fp : List String) (fs : Nat)
    (nC : Nat → Nat) (gC : Nat → Gender) :
    4 ≤ (generateFamily mp fp fs nC gC).members.length ∧
    0 ∈ (generateFamily mp fp fs nC gC).members ∧
    1 ∈ (generateFamily mp fp fs nC gC).members ∧
    2 ∈ (generateFamily mp fp fs nC gC).members ∧
    3 ∈ (generateFamily mp fp fs nC gC).members ∧
    (generateFamily mp fp fs nC gC).members.Nodup := by
  obtain ⟨k, u, h⟩ := generateFamily_inv mp fp fs nC gC
  rw [h.members_eq]
  refine ⟨?_, ?_, ?_, ?_, ?_, List.nodup_range _⟩
  · rw [List.length_range]; omega
  · rw [List.mem_range]; omega
  · rw [List.mem_range]; omega
  · rw [List.mem_range]; omega
  · rw [List.mem_range]; omega

/-- C10: in every generated family the grandfather–grandmother pair (0, 1)
is a pair of distinct members on which classification succeeds (spouse
rule, label `husband`), so the rejection-sampling loop of
`_get_relationship_question` always has a succeeding sample available. -/
theorem rejection_loop_has_solvable_pair (mp fp : List String) (fs : Nat)
    (nC : Nat → Nat) (gC : Nat → Gender) :
    0 ∈ (generateFamily mp fp fs nC gC).members ∧
    1 ∈ (generateFamily mp fp fs nC gC).members ∧
    (0 : Nat) ≠ 1 ∧
    classify (generateFamily mp fp fs nC gC) 0 1 = some Relationship.husband ∧
    getRelationshipQuestion (generateFamily mp fp fs nC gC) [(0, 1)] =
      some (0, 1, Relationship.husband) := by
  obtain ⟨k, u, h⟩ := generateFamily_inv mp fp fs nC gC
  have hcl : classify (generateFamily mp fp fs nC gC) 0 1 =
      some Relationship.husband := by
    unfold classify
    rw [h.parents0, h.parents1, h.spouse0, h.gender0]
    simp
  refine ⟨?_, ?_, by omega, hcl, ?_⟩
  · rw [h.mem_iff]; omega
  · rw [h.mem_iff]; omega
  · simp [getRelationshipQuestion, hcl]

/-- C8: `add_child` establishes matched bidirectional edges and is
idempotent — after `addChild s p c` the child is in the parent's `children`
and the parent in the child's `parents`, and a second identical call leaves
the whole state unchanged — and consequently in every generated family
every person in `children` of `x` has `x` in its `parents`. -/
theorem add_child_bidirectional_idempotent :
    (∀ (s : FamilyState) (p c : Nat),
        c ∈ (addChild s p c).children p ∧
        p ∈ (addChild s p c).parents c ∧
        addChild (addChild s p c) p c = addChild s p c) ∧
    (∀ (mp fp : List String) (fs : Nat) (nC : Nat → Nat) (gC : Nat → Gender)
        (x y : Nat), y ∈ (generateFamily mp fp fs nC gC).children x →
        x ∈ (generateFamily mp fp fs nC gC).parents y) := by
  constructor
  · intro s p c
    have hc : c ∈ (addChild s p c).children p := by
      rw [addChild_children_self]
      split_ifs with hin
      · exact hin
      · exact List.mem_append_right _ (List.mem_singleton.mpr rfl)
    have hp : p ∈ (addChild s p c).parents c := by
      rw [addChild_parents_self]
      split_ifs with hin
      · exact hin
      · exact List.mem_append_right _ (List.mem_singleton.mpr rfl)
    refine ⟨hc, hp, ?_⟩
    refine FamilyState.ext ?_ ?_ rfl rfl rfl rfl
    · funext q
      by_cases hq : q = c
      · subst hq
        rw [addChild_parents_self, if_pos hp]
      · rw [addChild_parents_other _ _ hq]
    · funext q
      by_cases hq : q = p
      · subst hq
        rw [addChild_children_self, if_pos hc]
      · rw [addChild_children_other _ _ hq]
  · intro mp fp fs nC gC x y hy
    obtain ⟨k, u, h⟩ := generateFamily_inv mp fp fs nC gC
    rw [h.children_eq] at hy
    split_ifs at hy with h1 h2
    · have hy2 : y = 2 := by simpa using hy
      subst hy2
      rw [h.parents2]
      rcases h1 with rfl | rfl
      · simp
      · simp
    · rw [List.mem_range'_1] at hy
      rw [h.parentsChild (by omega) (by omega)]
      rcases h2 with rfl | rfl
      · simp
      · simp
    · simp at hy

/-- Witness for `add_child_bidirectional_idempotent` at a concrete
generated family: the father (2) is a child of the grandfather (0), hence
the grandfather is among the father's parents. -/
theorem add_child_bidirectional_witness : 0 ∈ demoFamily.parents 2 :=
  add_child_bidirectional_idempotent.2 ["Abe", "Bob", "Carl"]
    ["Dana", "Eve", "Fay"] 5 (fun _ => 0) (fun _ => Gender.male) 0 2 (by decide)

/-- C4: for every generated family and every loop-created child `c`
(member with id ≥ 4), the ordered pair (grandchild, grandparent) matches
none of the five classification rules (`matchCount = 0`), `classify` fails
(returns `none`, i.e. the recursive resample branch is taken), and the
rejection loop then succeeds on a later sample instead of labelling the
reverse-grandparent pair. -/
theorem reverse_grandparent_unclassified (mp fp : List String) (fs : Nat)
    (nC : Nat → Nat) (gC : Nat → Gender) (c : Nat)
    (hc : c ∈ (generateFamily mp fp fs nC gC).members) (hc4 : 4 ≤ c) :
    matchCount (generateFamily mp fp fs nC gC) c 0 = 0 ∧
    matchCount (generateFamily mp fp fs nC gC) c 1 = 0 ∧
    classify (generateFamily mp fp fs nC gC) c 0 = none ∧
    classify (generateFamily mp fp fs nC gC) c 1 = none ∧
    getRelationshipQuestion (generateFamily mp fp fs nC gC) [(c, 0), (0, 1)] =
      some (0, 1, Relationship.husband) := by
  obtain ⟨k, u, h⟩ := generateFamily_inv mp fp fs nC gC
  have hck : c < 4 + k := (h.mem_iff).mp hc
  have hpc : (generateFamily mp fp fs nC gC).parents c = [2, 3] :=
    h.parentsChild hc4 hck
  have hsc : (generateFamily mp fp fs nC gC).spouse c = none := h.spouseChild hc4
  have hm0 : matchCount (generateFamily mp fp fs nC gC) c 0 = 0 := by
    unfold matchCount
    rw [h.parents0, hpc, hsc]
    simp
  have hm1 : matchCount (generateFamily mp fp fs nC gC) c 1 = 0 := by
    unfold matchCount
    rw [h.parents1, hpc, hsc]
    simp
  have hcl0 : classify (generateFamily mp fp fs nC gC) c 0 = none := by
    unfold classify
    rw [h.parents0, hpc, hsc]
    simp
  have hcl1 : classify (generateFamily mp fp fs nC gC) c 1 = none := by
    unfold classify
    rw [h.parents1, hpc, hsc]
    simp
  have hg : classify (generateFamily mp fp fs nC gC) 0 1 =
      some Relationship.husband := by
    unfold classify
    rw [h.parents0, h.parents1, h.spouse0, h.gender0]
    simp
  refine ⟨hm0, hm1, hcl0, hcl1, ?_⟩
  simp [getRelationshipQuestion, hcl0, hg]

/-- Witness for `reverse_grandparent_unclassified`: the concrete child 4 of
`demoFamily` against grandfather 0 and grandmother 1. -/
theorem reverse_grandparent_witness :
    matchCount demoFamily 4 0 = 0 ∧ matchCount demoFamily 4 1 = 0 ∧
    classify demoFamily 4 0 = none ∧ classify demoFamily 4 1 = none ∧
    getRelationshipQuestion demoFamily [(4, 0), (0, 1)] =
      some (0, 1, Relationship.husband) :=
  reverse_grandparent_unclassified ["Abe", "Bob", "Carl"] ["Dana", "Eve", "Fay"]
    5 (fun _ => 0) (fun _ => Gender.male) 4 (by decide) (by decide)

/-- C3: for every generated family and every ordered pair of distinct
members, at most one of the five classification rules matches the pair,
and classification succeeds exactly when exactly one rule matches. -/
theorem classification_rules_mutually_exclusive (mp fp : List String) (fs : Nat)
    (nC : Nat → Nat) (gC : Nat → Gender) (p1 p2 : Nat)
    (h1 : p1 ∈ (generateFamily mp fp fs nC gC).members)
    (h2 : p2 ∈ (generateFamily mp fp fs nC gC).members)
    (hne : p1 ≠ p2) :
    matchCount (generateFamily mp fp fs nC gC) p1 p2 ≤ 1 ∧
    ((classify (generateFamily mp fp fs nC gC) p1 p2).isSome ↔
      matchCount (generateFamily mp fp fs nC gC) p1 p2 = 1) := by
  obtain ⟨k, u, h⟩ := generateFamily_inv mp fp fs nC gC
  have hb1 : p1 < 4 + k := h.mem_iff.mp h1
  have hb2 : p2 < 4 + k := h.mem_iff.mp h2
  have hc1 : p1 = 0 ∨ p1 = 1 ∨ p1 = 2 ∨ p1 = 3 ∨ (4 ≤ p1 ∧ p1 < 4 + k) := by omega
  have hc2 : p2 = 0 ∨ p2 = 1 ∨ p2 = 2 ∨ p2 = 3 ∨ (4 ≤ p2 ∧ p2 < 4 + k) := by omega
  rcases hc1 with rfl | rfl | rfl | rfl | ⟨hq1, hk1⟩ <;>
    rcases hc2 with rfl | rfl | rfl | rfl | ⟨hq2, hk2⟩
  · simp [matchCount, classify, h.parents0, h.spouse0]
  · simp [matchCount, classify, h.parents0, h.parents1, h.spouse0]
  · simp [matchCount, classify, h.parents0, h.parents1, h.parents2, h.spouse0]
  · simp [matchCount, classify, h.parents0, h.parents3, h.spouse0]
  · simp [matchCount, classify, h.parents0, h.parents2, h.parents3,
      h.parentsChild hq2 hk2, h.spouse0, (show (1 : Nat) ≠ p2 from by omega)]
  · simp [matchCount, classify, h.parents0, h.parents1, h.spouse1]
  · simp [matchCount, classify, h.parents1, h.spouse1]
  · simp [matchCount, classify, h.parents0, h.parents1, h.parents2, h.spouse1]
  · simp [matchCount, classify, h.parents1, h.parents3, h.spouse1]
  · simp [matchCount, classify, h.parents1, h.parents2, h.parents3,
      h.parentsChild hq2 hk2, h.spouse1, (show (0 : Nat) ≠ p2 from by omega)]
  · simp [matchCount, classify, h.parents0, h.parents2, h.spouse2]
  · simp [matchCount, classify, h.parents1, h.parents2, h.spouse2]
  · simp [matchCount, classify, h.parents0, h.parents1, h.parents2, h.spouse2]
  · simp [matchCount, classify, h.parents2, h.parents3, h.spouse2]
  · simp [matchCount, classify, h.parents2, h.parents3, h.parentsChild hq2 hk2,
      h.spouse2, (show p2 ≠ 0 from by omega), (show p2 ≠ 1 from by omega),
      (show (3 : Nat) ≠ p2 from by omega)]
    decide
  · simp [matchCount, classify, h.parents0, h.parents3, h.spouse3]
  · simp [matchCount, classify, h.parents1, h.parents3, h.spouse3]
  · simp [matchCount, classify, h.parents0, h.parents1, h.parents2, h.parents3,
      h.spouse3]
  · simp [matchCount, classify, h.parents3, h.spouse3]
  · simp [matchCount, classify, h.parents2, h.parents3, h.parentsChild hq2 hk2,
      h.spouse3, (show (2 : Nat) ≠ p2 from by omega)]
  · simp [matchCount, classify, h.parents0, h.parentsChild hq1 hk1,
      h.spouseChild hq1]
  · simp [matchCount, classify, h.parents1, h.parentsChild hq1 hk1,
      h.spouseChild hq1]
  · simp [matchCount, classify, h.parents0, h.parents1, h.parents2,
      h.parentsChild hq1 hk1, h.spouseChild hq1,
      (show p1 ≠ 0 from by omega), (show p1 ≠ 1 from by omega)]
    decide
  · simp [matchCount, classify, h.parents3, h.parentsChild hq1 hk1,
      h.spouseChild hq1]
  · simp [matchCount, classify, h.parents2, h.parents3, h.parentsChild hq1 hk1,
      h.parentsChild hq2 hk2, h.spouseChild hq1,
      (show p1 ≠ 2 from by omega), (show p1 ≠ 3 from by omega),
      (show p2 ≠ 2 from by omega), (show p2 ≠ 3 from by omega),
      (show p1 ≠ 0 from by omega), (show p1 ≠ 1 from by omega)]

/-- Witness for `classification_rules_mutually_exclusive`: the concrete
grandfather–grandmother pair of `demoFamily`. -/
theorem classification_rules_witness :
    matchCount demoFamily 0 1 ≤ 1 ∧
    ((classify demoFamily 0 1).isSome ↔ matchCount demoFamily 0 1 = 1) :=
  classification_rules_mutually_exclusive ["Abe", "Bob", "Carl"]
    ["Dana", "Eve", "Fay"] 5 (fun _ => 0) (fun _ => Gender.male) 0 1
    (by decide) (by decide) (by decide)

theorem couplesAux_count_stable (spouse : Nat → Option Nat) (A B : Nat) :
    ∀ (l : List Nat) (acc : List (Nat × Nat)),
      acc.count (A, B) + acc.count (B, A) = 1 →
      ((A, B) ∈ acc → A ∉ l) → ((B, A) ∈ acc → B ∉ l) →
      (couplesAux spouse l acc).count (A, B) +
        (couplesAux spouse l acc).count (B, A) = 1 := by
  intro l
  induction l with
  | nil =>
    intro acc hcount _ _
    simpa [couplesAux] using hcount
  | cons p rest ih =>
    intro acc hcount hgA hgB
    cases hsp : spouse p with
    | none =>
      have heq : couplesAux spouse (p :: rest) acc = couplesAux spouse rest acc := by
        simp [couplesAux, hsp]
      rw [heq]
      exact ih acc hcount (fun hm hr => hgA hm (List.mem_cons_of_mem _ hr))
        (fun hm hr => hgB hm (List.mem_cons_of_mem _ hr))
    | some sp =>
      by_cases hin : (sp, p) ∈ acc
      · have heq : couplesAux spouse (p :: rest) acc = couplesAux spouse rest acc := by
          simp [couplesAux, hsp, hin]
        rw [heq]
        exact ih acc hcount (fun hm hr => hgA hm (List.mem_cons_of_mem _ hr))
          (fun hm hr => hgB hm (List.mem_cons_of_mem _ hr))
      · have heq : couplesAux spouse (p :: rest) acc =
            couplesAux spouse rest (acc ++ [(p, sp)]) := by
          simp [couplesAux, hsp, hin]
        rw [heq]
        have hmemor : (A, B) ∈ acc ∨ (B, A) ∈ acc := by
          by_contra hc
          push_neg at hc
          rw [List.count_eq_zero.mpr hc.1, List.count_eq_zero.mpr hc.2] at hcount
          omega
        have hAB1 : (p, sp) ≠ (A, B) := by
          intro he
          rw [Prod.mk.injEq] at he
          obtain ⟨rfl, rfl⟩ := he
          rcases hmemor with hm | hm
          · exact hgA hm (List.mem_cons_self _ _)
          · exact hin hm
        have hBA1 : (p, sp) ≠ (B, A) := by
          intro he
          rw [Prod.mk.injEq] at he
          obtain ⟨rfl, rfl⟩ := he
          rcases hmemor with hm | hm
          · exact hin hm
          · exact hgB hm (List.mem_cons_self _ _)
        have c1 : ([(p, sp)] : List (Nat × Nat)).count (A, B) = 0 :=
          List.count_eq_zero.mpr (fun hm => hAB1 (List.mem_singleton.mp hm).symm)
        have c2 : ([(p, sp)] : List (Nat × Nat)).count (B, A) = 0 :=
          List.count_eq_zero.mpr (fun hm => hBA1 (List.mem_singleton.mp hm).symm)
        have hcount2 : (acc ++ [(p, sp)]).count (A, B) +
            (acc ++ [(p, sp)]).count (B, A) = 1 := by
          rw [List.count_append, List.count_append, c1, c2]
          omega
        refine ih (acc ++ [(p, sp)]) hcount2 ?_ ?_
        · intro hm
          rcases List.mem_append.mp hm with hm2 | hm2
          · exact fun hr => hgA hm2 (List.mem_cons_of_mem _ hr)
          · exact absurd (List.mem_singleton.mp hm2).symm hAB1
        · intro hm
          rcases List.mem_append.mp hm with hm2 | hm2
          · exact fun hr => hgB hm2 (List.mem_cons_of_mem _ hr)
          · exact absurd (List.mem_singleton.mp hm2).symm hBA1

theorem couplesAux_count_reach (spouse : Nat → Option Nat) (A B : Nat)
    (hne : A ≠ B) (hAB : spouse A = some B) (hBA : spouse B = some A) :
    ∀ (l : List Nat) (acc : List (Nat × Nat)),
      l.Nodup → A ∈ l → (A, B) ∉ acc → (B, A) ∉ acc →
      (couplesAux spouse l acc).count (A, B) +
        (couplesAux spouse l acc).count (B, A) = 1 := by
  intro l
  induction l with
  | nil =>
    intro acc _ hA _ _
    exact absurd hA (List.not_mem_nil A)
  | cons p rest ih =>
    intro acc hnd hA hnAB hnBA
    have hndrest : rest.Nodup := (List.nodup_cons.mp hnd).2
    have hpnotrest : p ∉ rest := (List.nodup_cons.mp hnd).1
    rcases List.mem_cons.mp hA with rfl | hArest
    · have heq : couplesAux spouse (A :: rest) acc =
          couplesAux spouse rest (acc ++ [(A, B)]) := by
        simp [couplesAux, hAB, hnBA]
      rw [heq]
      apply couplesAux_count_stable
      · have c1 : ([(A, B)] : List (Nat × Nat)).count (A, B) = 1 := by simp
        have c2 : ([(A, B)] : List (Nat × Nat)).count (B, A) = 0 := by
          refine List.count_eq_zero.mpr (fun hm => ?_)
          have hx := List.mem_singleton.mp hm
          rw [Prod.mk.injEq] at hx
          exact hne hx.1.symm
        rw [List.count_append, List.count_append, c1, c2,
          List.count_eq_zero.mpr hnAB, List.count_eq_zero.mpr hnBA]
      · intro _
        exact hpnotrest
      · intro hm
        rcases List.mem_append.mp hm with hm2 | hm2
        · exact absurd hm2 hnBA
        · have hx := List.mem_singleton.mp hm2
          rw [Prod.mk.injEq] at hx
          exact absurd hx.1.symm hne
    · cases hsp : spouse p with
      | none =>
        have heq : couplesAux spouse (p :: rest) acc = couplesAux spouse rest acc := by
          simp [couplesAux, hsp]
        rw [heq]
        exact ih acc hndrest hArest hnAB hnBA
      | some sp =>
        by_cases hin : (sp, p) ∈ acc
        · have heq : couplesAux spouse (p :: rest) acc =
              couplesAux spouse rest acc := by
            simp [couplesAux, hsp, hin]
          rw [heq]
          exact ih acc hndrest hArest hnAB hnBA
        · have heq : couplesAux spouse (p :: rest) acc =
              couplesAux spouse rest (acc ++ [(p, sp)]) := by
            simp [couplesAux, hsp, hin]
          rw [heq]
          by_cases hpB : p = B
          · have hspA : A = sp := by
              have h2 := hBA.symm.trans (hpB ▸ hsp)
              exact Option.some.inj h2
            subst hspA
            rw [hpB]
            rw [hpB] at hpnotrest
            apply couplesAux_count_stable
            · have c1 : ([(B, A)] : List (Nat × Nat)).count (B, A) = 1 := by simp
              have c2 : ([(B, A)] : List (Nat × Nat)).count (A, B) = 0 := by
                refine List.count_eq_zero.mpr (fun hm => ?_)
                have hx := List.mem_singleton.mp hm
                rw [Prod.mk.injEq] at hx
                exact hne hx.1
              rw [List.count_append, List.count_append, c1, c2,
                List.count_eq_zero.mpr hnAB, List.count_eq_zero.mpr hnBA]
            · intro hm
              rcases List.mem_append.mp hm with hm2 | hm2
              · exact absurd hm2 hnAB
              · have hx := List.mem_singleton.mp hm2
                rw [Prod.mk.injEq] at hx
                exact absurd hx.1 hne
            · intro _
              exact hpnotrest
          · have hAB2 : (A, B) ∉ acc ++ [(p, sp)] := by
              intro hm
              rcases List.mem_append.mp hm with hm2 | hm2
              · exact hnAB hm2
              · have hx := List.mem_singleton.mp hm2
                rw [Prod.mk.injEq] at hx
                exact hpnotrest (hx.1 ▸ hArest)
            have hBA2 : (B, A) ∉ acc ++ [(p, sp)] := by
              intro hm
              rcases List.mem_append.mp hm with hm2 | hm2
              · exact hnBA hm2
              · have hx := List.mem_singleton.mp hm2
                rw [Prod.mk.injEq] at hx
                exact hpB hx.1.symm
            exact ih _ hndrest hArest hAB2 hBA2

/-- C9: spouse links of every generated family are symmetric, and for every
family state with a symmetric spouse link between distinct `A` and `B`,
whatever iteration order the `family` set yields, the couple set built by
`_generate_story` contains the couple `{A, B}` exactly once — so exactly
one marriage sentence is emitted for it, never zero and never two. -/
theorem story_one_marriage_sentence_per_couple :
    (∀ (mp fp : List String) (fs : Nat) (nC : Nat → Nat) (gC : Nat → Gender)
        (a b : Nat), (generateFamily mp fp fs nC gC).spouse a = some b →
        (generateFamily mp fp fs nC gC).spouse b = some a) ∧
    (∀ (s : FamilyState) (l : List Nat) (A B : Nat),
        l.Nodup → A ∈ l → A ≠ B →
        s.spouse A = some B → s.spouse B = some A →
        (couples s.spouse l).count (A, B) + (couples s.spouse l).count (B, A) = 1 ∧
        (storyMarriageSentences s l).length = (couples s.spouse l).length) := by
  constructor
  · intro mp fp fs nC gC a b hab
    obtain ⟨k, u, h⟩ := generateFamily_inv mp fp fs nC gC
    rw [h.spouse_eq] at hab
    rw [h.spouse_eq]
    unfold spouseMap at hab ⊢
    split_ifs at hab with h3 h2 h1 h0
    · rw [Option.some.injEq] at hab
      subst hab
      subst h3
      simp
    · rw [Option.some.injEq] at hab
      subst hab
      subst h2
      simp
    · rw [Option.some.injEq] at hab
      subst hab
      subst h1
      simp
    · rw [Option.some.injEq] at hab
      subst hab
      subst h0
      simp
  · intro s l A B hnd hA hne hAB hBA
    refine ⟨couplesAux_count_reach s.spouse A B hne hAB hBA l [] hnd hA
      (by simp) (by simp), ?_⟩
    simp [storyMarriageSentences]

theorem story_marriage_witness :
    (couples demoFamily.spouse [0, 1, 2, 3, 4]).count (0, 1) +
      (couples demoFamily.spouse [0, 1, 2, 3, 4]).count (1, 0) = 1 ∧
    (storyMarriageSentences demoFamily [0, 1, 2, 3, 4]).length =
      (couples demoFamily.spouse [0, 1, 2, 3, 4]).length :=
  story_one_marriage_sentence_per_couple.2 demoFamily [0, 1, 2, 3, 4] 0 1
    (by decide) (by decide) (by decide) (by decide) (by decide)

/-- C5: `score_answer` is a total function (no branch raises) with exactly
three outcomes: a missing answer (`None`) scores 0.0; an answer that parses
and equals the stored answer scores 1.0; every other answer — unparseable
(the `except` branch) or parseable but wrong — scores the fallback 0.01. -/
theorem score_answer_cases (parse : String → Option ℚ) (expected : ℚ)
    (answer : Option String) :
    (answer = none → score_answer parse expected answer = 0) ∧
    (∀ a v, answer = some a → parse a = some v → v = expected →
      score_answer parse expected answer = 1) ∧
    (∀ a, answer = some a → (∀ v, parse a = some v → v ≠ expected) →
      score_answer parse expected answer = 1 / 100) := by
  refine ⟨?_, ?_, ?_⟩
  · intro h
    subst h
    rfl
  · intro a v ha hv he
    subst ha
    subst he
    simp [score_answer, hv]
  · intro a ha hwrong
    subst ha
    cases hp : parse a with
    | none => simp [score_answer, hp]
    | some v =>
      have hv : v ≠ expected := hwrong v hp
      simp [score_answer, hp, hv]

/-- Witness for `score_answer_cases`: the three outcomes at concrete
inputs (missing answer, exact match, unparseable answer). -/
theorem score_answer_witness :
    score_answer (fun _ => none) 3 none = 0 ∧
    score_answer (fun _ => some 3) 3 (some "3") = 1 ∧
    score_answer (fun _ => none) 3 (some "abc") = 1 / 100 :=
  ⟨(score_answer_cases (fun _ => none) 3 none).1 rfl,
   (score_answer_cases (fun _ => some 3) 3 (some "3")).2.1 "3" 3 rfl rfl rfl,
   (score_answer_cases (fun _ => none) 3 (some "abc")).2.2 "abc" rfl
     (fun v hv => absurd hv (by simp))⟩

theorem evalGo_no_div (dv1 dv2 : ℚ → ℚ → ℚ) :
    ∀ (rest : List (AOp × ℚ)) (sum : ℚ) (isAdd : Bool) (prod : ℚ),
      AOp.div ∉ rest.map Prod.fst →
      evalGo dv1 sum isAdd prod rest = evalGo dv2 sum isAdd prod rest := by
  intro rest
  induction rest with
  | nil =>
    intro sum isAdd prod _
    rfl
  | cons hd tl ih =>
    intro sum isAdd prod hnd
    obtain ⟨o, x⟩ := hd
    have hno : AOp.div ∉ tl.map Prod.fst := fun hm => hnd (List.mem_cons_of_mem _ hm)
    have hod : o ≠ AOp.div := fun he => hnd (by simp [he])
    cases o with
    | add => exact ih _ _ _ hno
    | sub => exact ih _ _ _ hno
    | mul => exact ih _ _ _ hno
    | div => exact absurd rfl hod

/-- C6: the `answer` recorded by `__getitem__` is `eval_floordiv` of the
displayed problem — the evaluation in which every `/` of the question
string is replaced by floor division `//` before evaluating; on problems
without a division this agrees with the displayed expression's true value,
and there is a generated question containing a division whose recorded
answer differs from the true decimal quotient. -/
theorem decimal_answer_is_floordiv_eval :
    (∀ (minD maxD n : Nat) (ndpR numR : Nat → Nat) (opR : Nat → AOp),
      getItemAnswer minD maxD n ndpR numR opR =
        eval_floordiv (generate_arithmetic_problem minD maxD n ndpR numR opR).1
          (generate_arithmetic_problem minD maxD n ndpR numR opR).2) ∧
    (∀ (first : ℚ) (rest : List (AOp × ℚ)), AOp.div ∉ rest.map Prod.fst →
      eval_floordiv first rest = evalDisplayed first rest) ∧
    (∃ (minD maxD n : Nat) (ndpR numR : Nat → Nat) (opR : Nat → AOp),
      AOp.div ∈
        ((generate_arithmetic_problem minD maxD n ndpR numR opR).2.map Prod.fst) ∧
      getItemAnswer minD maxD n ndpR numR opR ≠
        evalDisplayed (generate_arithmetic_problem minD maxD n ndpR numR opR).1
          (generate_arithmetic_problem minD maxD n ndpR numR opR).2) := by
  refine ⟨fun _ _ _ _ _ _ => rfl, ?_, ?_⟩
  · intro first rest hnd
    exact evalGo_no_div qfloorDiv qtrueDiv rest 0 true first hnd
  · refine ⟨6, 6, 1, fun _ => 0, fun i => if i = 0 then 6999999 else 1999999,
      fun _ => AOp.div, ?_, ?_⟩
    · simp [generate_arithmetic_problem]
    · norm_num [getItemAnswer, eval_floordiv, evalDisplayed, evalChain,
        generate_arithmetic_problem, termValue, evalGo, applyAdd, qfloorDiv,
        qtrueDiv, List.range_succ]

/-- Witness for `decimal_answer_is_floordiv_eval`: a division-free problem
evaluates identically under both semantics. -/
theorem decimal_answer_witness :
    eval_floordiv 5 [(AOp.add, 3)] = evalDisplayed 5 [(AOp.add, 3)] :=
  decimal_answer_is_floordiv_eval.2.1 5 [(AOp.add, 3)] (by decide)
